import Mathlib

/-!
Verification of the turdgl 2D graphics core: a shallow embedding of the
vector math (vec.go), the shape primitives and their rasterization
(shapes source file), and the button state machine (button.go), with
theorems settling the specification claims.

Go float64 values are modelled as real numbers; Go panics are modelled by
an Option result (none = panic).  The frame buffer and the window input
source are not part of the given sources, so they are modelled from the
spec (see their doc comments).
-/

namespace turdgl

/-- `Vec` from vec.go: Cartesian coordinates on a pixel grid. -/
@[ext]
structure Vec where
  X : ℝ
  Y : ℝ

/-- `Vec.Mag` from vec.go: `math.Sqrt(v.X*v.X + v.Y*v.Y)`. -/
noncomputable def Vec.Mag (v : Vec) : ℝ :=
  Real.sqrt (v.X * v.X + v.Y * v.Y)

/-- `Normalise` from vec.go: divides both components by the magnitude. -/
noncomputable def Normalise (v : Vec) : Vec :=
  ⟨v.X / v.Mag, v.Y / v.Mag⟩

/-- `Vec.SetMag` from vec.go: scales the unit vector by the new magnitude. -/
noncomputable def Vec.SetMag (v : Vec) (newMag : ℝ) : Vec :=
  let uv := Normalise v
  ⟨uv.X * newMag, uv.Y * newMag⟩

/-- `Dist` from vec.go: `math.Sqrt(math.Pow(v1.X-v2.X,2) + math.Pow(v1.Y-v2.Y,2))`. -/
noncomputable def Dist (v1 v2 : Vec) : ℝ :=
  Real.sqrt ((v1.X - v2.X) ^ 2 + (v1.Y - v2.Y) ^ 2)

/-- `Sub` from vec.go. -/
def Sub (v1 v2 : Vec) : Vec :=
  ⟨v1.X - v2.X, v1.Y - v2.Y⟩

/-- `Add` from vec.go. -/
def Add (v1 v2 : Vec) : Vec :=
  ⟨v1.X + v2.X, v1.Y + v2.Y⟩

/-- `Dot` from vec.go, exactly as written in the source:
`v1.X*v2.X + v1.Y*v2.X` (the second factor of the Y term is `v2.X`). -/
def Dot (v1 v2 : Vec) : ℝ :=
  v1.X * v2.X + v1.Y * v2.X

/-- The mathematical dot product that the spec's open question contrasts
`Dot` with (written from the spec's words `v1.X*v2.X + v1.Y*v2.Y`, for the
comparison in claim C2 only). -/
def DotSpec (v1 v2 : Vec) : ℝ :=
  v1.X * v2.X + v1.Y * v2.Y

/-- Go's `int(math.Round(x))`: round half away from zero, then the integer
conversion is the identity because the value is already integral. -/
noncomputable def goRound (x : ℝ) : ℤ :=
  if 0 ≤ x then ⌊x + 1 / 2⌋ else -⌊-x + 1 / 2⌋

/-- Modelled from the spec: the mouse-state enum supplied by the host
window (`enum{NoClick, LeftClick, RightClick, ...}`); the window source is
not part of the given files.  `NoClick` is the Go zero value. -/
inductive MouseState where
  | NoClick
  | LeftClick
  | RightClick
deriving DecidableEq

export MouseState (NoClick LeftClick RightClick)

/-- `ButtonBehaviour` from button.go: a Go `int`. -/
abbrev ButtonBehaviour := Int

/-- `OnAll` from button.go (`iota` = 0). -/
def OnAll : ButtonBehaviour := 0

/-- `OnPress` from button.go. -/
def OnPress : ButtonBehaviour := 1

/-- `OnRelease` from button.go. -/
def OnRelease : ButtonBehaviour := 2

/-- `OnPressAndRelease` from button.go. -/
def OnPressAndRelease : ButtonBehaviour := 3

/-- `OnHold` from button.go. -/
def OnHold : ButtonBehaviour := 4

/-- `OnHover` from button.go. -/
def OnHover : ButtonBehaviour := 5

/-- Modelled from the spec: the input source supplied by the host window
(`MouseButtonState() -> MouseState`, `MouseLocation() -> Vec`), polled by
`Button.Update`; per the spec's concurrency model it is constant for the
duration of one `Update` call. -/
structure Window where
  MouseButtonState : MouseState
  MouseLocation : Vec

/-- `Button` from button.go, restricted to the fields `Update` and
`IsHovering` read.  The `Shape` field is abstracted to its hoverable
capability `IsWithin` (the only capability `Update` uses); the label and
the callback body do not influence the state machine, so the callback is
observed through the list of invocations `Update` returns. -/
structure Button where
  IsWithin : Vec → Bool
  Trigger : MouseState
  Behaviour : ButtonBehaviour
  prevMouseState : MouseState
  prevMouseLoc : Vec

/-- `NewButton` from button.go: `Trigger: LeftClick`, `Behaviour: OnAll`;
the unexported history fields get Go zero values (`NoClick`, `Vec{0,0}`). -/
def NewButton (shape : Vec → Bool) : Button :=
  { IsWithin := shape
    Trigger := LeftClick
    Behaviour := OnAll
    prevMouseState := NoClick
    prevMouseLoc := ⟨0, 0⟩ }

/-- `Button.Update` from button.go.  The first component is the list of
callback invocations (each carrying the mouse state passed to the
callback); the second is the button after the call, `none` when the
`default` switch branch panics (in which case nothing fired and the
history fields were not written). -/
def Button.Update (b : Button) (win : Window) : List MouseState × Option Button :=
  let currentMouseState := win.MouseButtonState
  let hovering := b.IsWithin win.MouseLocation
  let updated : Button :=
    { b with prevMouseState := win.MouseButtonState, prevMouseLoc := win.MouseLocation }
  if b.Behaviour = OnAll then
    ([currentMouseState], some updated)
  else if b.Behaviour = OnHover then
    (if hovering then [currentMouseState] else [], some updated)
  else if b.Behaviour = OnPress then
    (if hovering ∧ b.prevMouseState = NoClick ∧ currentMouseState = b.Trigger then
      [currentMouseState] else [], some updated)
  else if b.Behaviour = OnRelease then
    (if hovering ∧ b.prevMouseState = b.Trigger ∧ currentMouseState = NoClick then
      [currentMouseState] else [], some updated)
  else if b.Behaviour = OnPressAndRelease then
    (if hovering ∧ ¬b.prevMouseState = currentMouseState then
      [currentMouseState] else [], some updated)
  else if b.Behaviour = OnHold then
    (if hovering ∧ currentMouseState = b.Trigger then
      [currentMouseState] else [], some updated)
  else
    ([], none)

/-- `Button.IsHovering` from button.go: containment of the stored
previous-frame cursor location. -/
def Button.IsHovering (b : Button) : Bool :=
  b.IsWithin b.prevMouseLoc

/-- The callback fired during this `Update` call. -/
def Button.fires (b : Button) (win : Window) : Prop :=
  (b.Update win).1 ≠ []

/-- The button state after an `Update` call (unchanged if the call panicked). -/
def Button.next (b : Button) (win : Window) : Button :=
  (b.Update win).2.getD b

/-- `Style` from the shapes source.  The colour (external `color.Color`)
never influences which pixels are written, and pixels are modelled as
written-flags, so the colour is carried as a unit placeholder. -/
structure Style where
  Colour : Unit
  Thickness : ℝ

/-- `shape` from the shapes source: the generic 2D shape attributes. -/
structure shape where
  Pos : Vec
  Direction : Vec
  w : ℝ
  h : ℝ
  style : Style

/-- `defaultShape` from the shapes source: direction up, default style
with thickness 0. -/
noncomputable def defaultShape (width height : ℝ) (pos : Vec) : shape :=
  { Pos := pos
    Direction := Normalise ⟨0, -1⟩
    w := width
    h := height
    style := { Colour := (), Thickness := 0 } }

/-- `newShape` from the shapes source: default shape with the functional
options applied in order. -/
noncomputable def newShape (width height : ℝ) (pos : Vec) (opts : List (shape → shape)) : shape :=
  opts.foldl (fun s opt => opt s) (defaultShape width height pos)

/-- `WithStyle` from the shapes source. -/
def WithStyle (style : Style) : shape → shape :=
  fun s => { s with style := style }

/-- Modelled from the spec: the frame buffer (its source file is not among
the given files) — a fixed-size grid addressed by non-negative integer
row/column with silent clipping on out-of-range writes.  Pixels are
modelled as written-flags since no claim concerns colour values. -/
structure FrameBuffer where
  width : ℤ
  height : ℤ
  pixels : ℤ → ℤ → Bool

/-- Modelled from the spec: `SetPixel(row, col, color)` with silent
clipping on out-of-range coordinates. -/
def FrameBuffer.SetPixel (b : FrameBuffer) (row col : ℤ) : FrameBuffer :=
  if 0 ≤ row ∧ row < b.height ∧ 0 ≤ col ∧ col < b.width then
    { b with pixels := fun r c => if r = row ∧ c = col then true else b.pixels r c }
  else
    b

/-- `Rect` from the shapes source. -/
structure Rect extends shape

/-- `NewRect` from the shapes source.  Note the Go constructor calls
`newShape(width, height, pos)` WITHOUT forwarding its `opts`, so the
options are dropped and every `Rect` keeps the default style. -/
noncomputable def NewRect (width height : ℝ) (pos : Vec) (_opts : List (shape → shape)) : Rect :=
  ⟨newShape width height pos []⟩

/-- The thickness-0 branch of `Rect.Draw`: `for i := 0; i <= int(math.Round(r.w)); i++`
and the same for `j` over the height, writing pixel
`(round(Pos.Y)+j, round(Pos.X)+i)`.  The inclusive loop bound gives
`round(w)+1` iterations (none when that is negative). -/
noncomputable def Rect.drawSolid (r : Rect) (buf : FrameBuffer) : FrameBuffer :=
  (List.range (goRound r.w + 1).toNat).foldl (fun b1 (i : ℕ) =>
    (List.range (goRound r.h + 1).toNat).foldl (fun b2 (j : ℕ) =>
      b2.SetPixel (goRound r.Pos.Y + (j : ℤ)) (goRound r.Pos.X + (i : ℤ))) b1) buf

/-- `Rect.Draw` from the shapes source: solid fill when thickness is 0,
otherwise four edge bands drawn as solid rectangles (each edge rectangle
is built by `NewRect`, hence has the default thickness-0 style, so its
`Draw` is exactly `drawSolid`). -/
noncomputable def Rect.Draw (r : Rect) (buf : FrameBuffer) : FrameBuffer :=
  if r.style.Thickness = 0 then
    r.drawSolid buf
  else
    let top := NewRect r.w r.style.Thickness r.Pos [WithStyle ⟨(), 0⟩]
    let bottom := NewRect r.w r.style.Thickness
      ⟨r.Pos.X, r.Pos.Y + r.h - r.style.Thickness⟩ [WithStyle ⟨(), 0⟩]
    let left := NewRect r.style.Thickness r.h ⟨r.Pos.X, r.Pos.Y⟩ [WithStyle ⟨(), 0⟩]
    let right := NewRect r.style.Thickness r.h
      ⟨r.Pos.X + r.w - r.style.Thickness, r.Pos.Y⟩ [WithStyle ⟨(), 0⟩]
    right.drawSolid (left.drawSolid (bottom.drawSolid (top.drawSolid buf)))

/-- `Circle` from the shapes source. -/
structure Circle extends shape

/-- `NewCircle` from the shapes source: it takes a SINGLE diameter and
uses it for both the width and the height (there is no separate
width/height pair to disagree), forwarding the options. -/
noncomputable def NewCircle (diameter : ℝ) (pos : Vec) (opts : List (shape → shape)) : Circle :=
  ⟨newShape diameter diameter pos opts⟩

/-- `Circle.Draw` from the shapes source: `none` models the panic when
`c.w != c.h` (which happens before any pixel is written).  Otherwise the
bounding box `NewRect(c.w, c.h, Pos - (radius, radius))` is scanned by the
float loops `for i := bbox.Pos.X; i <= bbox.Pos.X+bbox.w; i++` (and `j`
over the height): the loop visits `Pos.X - radius + k` for natural `k`
while `k ≤ c.w`, i.e. `⌊c.w⌋ + 1` iterations (none when negative).  A
pixel is written at `(round(j), round(i))` when the Euclidean distance
from the centre is at most the radius (solid), or inside the closed band
`[radius - thickness, radius]` (outline). -/
noncomputable def Circle.Draw (c : Circle) (buf : FrameBuffer) : Option FrameBuffer :=
  if c.w ≠ c.h then
    none
  else
    some ((List.range (⌊c.w⌋ + 1).toNat).foldl (fun b1 (k : ℕ) =>
      (List.range (⌊c.h⌋ + 1).toNat).foldl (fun b2 (l : ℕ) =>
        if c.style.Thickness = 0 then
          if Dist c.Pos ⟨c.Pos.X - c.w / 2 + (k : ℝ), c.Pos.Y - c.w / 2 + (l : ℝ)⟩ ≤ c.w / 2 then
            b2.SetPixel (goRound (c.Pos.Y - c.w / 2 + (l : ℝ)))
              (goRound (c.Pos.X - c.w / 2 + (k : ℝ)))
          else b2
        else
          if c.w / 2 - c.style.Thickness ≤
              Dist c.Pos ⟨c.Pos.X - c.w / 2 + (k : ℝ), c.Pos.Y - c.w / 2 + (l : ℝ)⟩ ∧
              Dist c.Pos ⟨c.Pos.X - c.w / 2 + (k : ℝ), c.Pos.Y - c.w / 2 + (l : ℝ)⟩ ≤ c.w / 2 then
            b2.SetPixel (goRound (c.Pos.Y - c.w / 2 + (l : ℝ)))
              (goRound (c.Pos.X - c.w / 2 + (k : ℝ)))
          else b2) b1) buf)

/-- A shape predicate containing every point (used as a concrete hoverable). -/
def trueShape : Vec → Bool := fun _ => true

/-- A concrete window frame: left button down, cursor at the origin. -/
def winL : Window := ⟨LeftClick, ⟨0, 0⟩⟩

/-- A concrete window frame: no button down, cursor at the origin. -/
def winN : Window := ⟨NoClick, ⟨0, 0⟩⟩

/-- A concrete 10×10 frame buffer with no pixel written. -/
def buf10 : FrameBuffer := ⟨10, 10, fun _ _ => false⟩

/-- On every recognized behaviour mode, `Update` stores the mouse state and
cursor location it sampled as the new previous-frame history, leaving all
other fields unchanged. -/
theorem Button.update_snd (b : Button) (win : Window)
    (hrec : b.Behaviour = OnAll ∨ b.Behaviour = OnHover ∨ b.Behaviour = OnPress ∨
      b.Behaviour = OnRelease ∨ b.Behaviour = OnPressAndRelease ∨ b.Behaviour = OnHold) :
    (b.Update win).2 =
      some { b with
             prevMouseState := win.MouseButtonState
             prevMouseLoc := win.MouseLocation } := by
  unfold Button.Update
  rcases hrec with h | h | h | h | h | h <;>
    simp [h, OnAll, OnHover, OnPress, OnRelease, OnPressAndRelease, OnHold]

/-- On every recognized behaviour mode, `next` is the button with the
history fields replaced by this call's samples. -/
theorem Button.next_eq (b : Button) (win : Window)
    (hrec : b.Behaviour = OnAll ∨ b.Behaviour = OnHover ∨ b.Behaviour = OnPress ∨
      b.Behaviour = OnRelease ∨ b.Behaviour = OnPressAndRelease ∨ b.Behaviour = OnHold) :
    b.next win =
      { b with
        prevMouseState := win.MouseButtonState
        prevMouseLoc := win.MouseLocation } := by
  unfold Button.next
  rw [Button.update_snd b win hrec]
  rfl

/-- Firing characterization of the `OnPress` branch of `Button.Update`. -/
theorem Button.fires_onPress (b : Button) (w : Window) (hB : b.Behaviour = OnPress) :
    b.fires w ↔ (b.IsWithin w.MouseLocation = true ∧ b.prevMouseState = NoClick ∧
      w.MouseButtonState = b.Trigger) := by
  unfold Button.fires Button.Update
  simp only [hB, OnPress, OnAll, OnHover]
  norm_num

/-- C1: with behaviour `OnPress` and trigger `LeftClick`, `Update` fires
the callback iff the cursor is within the shape, the stored previous state
is `NoClick`, and the current state is `LeftClick`; hence over a frame
sequence the transition NoClick→LeftClick while hovering fires exactly
once, a sustained LeftClick does not re-fire, and LeftClick→NoClick does
not fire. -/
theorem button_onPress_fires (b : Button) (w1 w2 w3 : Window)
    (hB : b.Behaviour = OnPress) (hT : b.Trigger = LeftClick) :
    (b.fires w1 ↔
      b.IsWithin w1.MouseLocation = true ∧ b.prevMouseState = NoClick ∧
        w1.MouseButtonState = LeftClick)
    ∧ (b.prevMouseState = NoClick → b.IsWithin w1.MouseLocation = true →
        w1.MouseButtonState = LeftClick →
        b.fires w1
        ∧ (w2.MouseButtonState = LeftClick → ¬(b.next w1).fires w2)
        ∧ (w2.MouseButtonState = LeftClick → w3.MouseButtonState = NoClick →
            ¬((b.next w1).next w2).fires w3)) := by
  have hrec : ∀ bb : Button, bb.Behaviour = OnPress →
      (bb.Behaviour = OnAll ∨ bb.Behaviour = OnHover ∨ bb.Behaviour = OnPress ∨
        bb.Behaviour = OnRelease ∨ bb.Behaviour = OnPressAndRelease ∨ bb.Behaviour = OnHold) :=
    fun bb h => Or.inr (Or.inr (Or.inl h))
  have hn1 := Button.next_eq b w1 (hrec b hB)
  have hB1 : (b.next w1).Behaviour = OnPress := by rw [hn1]; exact hB
  have hn2 := Button.next_eq (b.next w1) w2 (hrec _ hB1)
  have hB2 : ((b.next w1).next w2).Behaviour = OnPress := by rw [hn2]; exact hB1
  constructor
  · rw [Button.fires_onPress b w1 hB, hT]
  · intro hprev hov hst
    refine ⟨(Button.fires_onPress b w1 hB).mpr ⟨hov, hprev, by rw [hst, hT]⟩, ?_, ?_⟩
    · intro hw2 hf
      obtain ⟨-, hp, -⟩ := (Button.fires_onPress _ w2 hB1).mp hf
      rw [hn1] at hp
      simp only at hp
      rw [hst] at hp
      exact absurd hp (by simp)
    · intro hw2 hw3 hf
      obtain ⟨-, -, htr⟩ := (Button.fires_onPress _ w3 hB2).mp hf
      have hTr2 : ((b.next w1).next w2).Trigger = LeftClick := by
        rw [hn2, hn1]; exact hT
      rw [hw3, hTr2] at htr
      exact absurd htr (by simp)

/-- C1 witness: a concrete OnPress/LeftClick button over the concrete
frames fires on the NoClick→LeftClick transition and does not re-fire on
the sustained LeftClick frame. -/
theorem button_onPress_fires_witness :
    Button.fires ⟨trueShape, LeftClick, OnPress, NoClick, ⟨0, 0⟩⟩ winL ∧
      ¬(Button.next ⟨trueShape, LeftClick, OnPress, NoClick, ⟨0, 0⟩⟩ winL).fires winL := by
  have h := (button_onPress_fires ⟨trueShape, LeftClick, OnPress, NoClick, ⟨0, 0⟩⟩
    winL winL winL rfl rfl).2 rfl rfl rfl
  exact ⟨h.1, h.2.1 rfl⟩

/-- C6: on every recognized behaviour mode (for every trigger, hover
outcome and callback), `Update` returns a button whose stored previous
mouse state and previous cursor location are exactly the state and
location sampled for this call, with all other fields unchanged — the
history update happens even when no callback fired, and (the window being
constant during one call per the spec's synchronous frame model) it is the
state sampled for this call that is stored, after the hover/transition
evaluation. -/
theorem update_history_unconditional (b : Button) (win : Window)
    (hrec : b.Behaviour ∈ [OnAll, OnHover, OnPress, OnRelease, OnPressAndRelease, OnHold]) :
    (b.Update win).2 =
      some { b with
             prevMouseState := win.MouseButtonState
             prevMouseLoc := win.MouseLocation } :=
  Button.update_snd b win (by simpa using hrec)

/-- C6 witness at a concrete button and window. -/
theorem update_history_unconditional_witness :
    (Button.Update ⟨trueShape, LeftClick, OnPress, NoClick, ⟨1, 1⟩⟩ winL).2 =
      some { IsWithin := trueShape, Trigger := LeftClick, Behaviour := OnPress,
             prevMouseState := winL.MouseButtonState,
             prevMouseLoc := winL.MouseLocation } :=
  update_history_unconditional ⟨trueShape, LeftClick, OnPress, NoClick, ⟨1, 1⟩⟩ winL
    (by simp [OnPress, OnAll, OnHover, OnRelease, OnPressAndRelease, OnHold])

/-- C7: calling `Update` on a button whose behaviour field is none of the
six recognized modes hits the `default` switch branch: it panics (`none`
result) and fires no callback (empty invocation list). -/
theorem update_unknown_behaviour_panics (b : Button) (win : Window)
    (h : b.Behaviour ∉ [OnAll, OnHover, OnPress, OnRelease, OnPressAndRelease, OnHold]) :
    b.Update win = ([], none) := by
  simp only [List.mem_cons, List.not_mem_nil, or_false, not_or] at h
  obtain ⟨h0, h5, h1, h2, h3, h4⟩ := h
  unfold Button.Update
  simp [h0, h1, h2, h3, h4, h5]

/-- C7 witness: behaviour value 6 is unrecognized, so `Update` panics
without firing. -/
theorem update_unknown_behaviour_panics_witness :
    Button.Update ⟨trueShape, LeftClick, 6, NoClick, ⟨0, 0⟩⟩ winL = ([], none) :=
  update_unknown_behaviour_panics ⟨trueShape, LeftClick, 6, NoClick, ⟨0, 0⟩⟩ winL
    (by simp [OnPress, OnAll, OnHover, OnRelease, OnPressAndRelease, OnHold])

/-- C9: a freshly constructed button has behaviour `OnAll` and trigger
`LeftClick`, so every `Update` call fires its callback exactly once,
unconditionally — regardless of hover state or mouse state — and the
button after an `Update` keeps doing so. -/
theorem newButton_default_fires_all (shape : Vec → Bool) (win win2 : Window) :
    (NewButton shape).Behaviour = OnAll ∧ (NewButton shape).Trigger = LeftClick ∧
    ((NewButton shape).Update win).1 = [win.MouseButtonState] ∧
    (((NewButton shape).next win).Update win2).1 = [win2.MouseButtonState] := by
  refine ⟨rfl, rfl, ?_, ?_⟩
  · simp [Button.Update, NewButton]
  · simp [Button.Update, Button.next, NewButton]

/-- C10: `IsHovering` tests the cursor location stored by the most recent
`Update` call, not a newer cursor position; before any `Update` has run a
fresh button tests the zero vector. -/
theorem isHovering_lags (b : Button) (win : Window) (f : Vec → Bool)
    (hrec : b.Behaviour ∈ [OnAll, OnHover, OnPress, OnRelease, OnPressAndRelease, OnHold]) :
    (b.next win).IsHovering = b.IsWithin win.MouseLocation ∧
    (NewButton f).IsHovering = f ⟨0, 0⟩ := by
  constructor
  · rw [Button.next_eq b win (by simpa using hrec)]
    rfl
  · rfl

/-- C10 witness at a concrete button and window. -/
theorem isHovering_lags_witness :
    ((NewButton trueShape).next winL).IsHovering =
        (NewButton trueShape).IsWithin winL.MouseLocation ∧
      (NewButton trueShape).IsHovering = trueShape ⟨0, 0⟩ :=
  isHovering_lags (NewButton trueShape) winL trueShape
    (by simp [NewButton, OnPress, OnAll, OnHover, OnRelease, OnPressAndRelease, OnHold])

/-- C2: `Dot` computes `v1.X*v2.X + v1.Y*v2.X` — the Y term reuses `v2.X`
— and on a concrete input this differs from the mathematical dot product
`v1.X*v2.X + v1.Y*v2.Y`. -/
theorem dot_uses_v2X :
    (∀ v1 v2 : Vec, Dot v1 v2 = v1.X * v2.X + v1.Y * v2.X) ∧
      Dot ⟨0, 1⟩ ⟨1, 2⟩ ≠ DotSpec ⟨0, 1⟩ ⟨1, 2⟩ := by
  refine ⟨fun v1 v2 => rfl, ?_⟩
  unfold Dot DotSpec
  norm_num

/-- `SetMag` written out on components. -/
theorem Vec.SetMag_eq (v : Vec) (m : ℝ) :
    v.SetMag m = ⟨v.X / v.Mag * m, v.Y / v.Mag * m⟩ := rfl

/-- C8 counterexample: `v = (1,0)` has nonzero magnitude, yet
`Mag(SetMag(v, -1))` is `1`, not `-1`: the claim fails for negative `m`
because `Mag` is a square root and hence never negative. -/
theorem setMag_neg_counterexample :
    Vec.Mag ⟨1, 0⟩ ≠ 0 ∧ Vec.Mag (Vec.SetMag ⟨1, 0⟩ (-1)) ≠ -1 := by
  have h1 : Vec.Mag ⟨1, 0⟩ = 1 := by
    simp only [Vec.Mag]
    norm_num [Real.sqrt_one]
  refine ⟨by rw [h1]; norm_num, ?_⟩
  have h2 : Vec.SetMag ⟨1, 0⟩ (-1) = ⟨-1, 0⟩ := by
    rw [Vec.SetMag_eq, h1]
    norm_num
  rw [h2]
  simp only [Vec.Mag]
  norm_num [Real.sqrt_one]

/-- C8 (amended to positive target magnitudes): for every vector of
nonzero magnitude and every `m > 0`, `SetMag` produces a vector of
magnitude exactly `m` with the direction preserved. -/
theorem setMag_pos_spec (v : Vec) (m : ℝ) (hv : v.Mag ≠ 0) (hm : 0 < m) :
    (v.SetMag m).Mag = m ∧ Normalise (v.SetMag m) = Normalise v := by
  have hs : 0 ≤ v.X * v.X + v.Y * v.Y := by
    nlinarith [mul_self_nonneg v.X, mul_self_nonneg v.Y]
  have hMM : v.Mag * v.Mag = v.X * v.X + v.Y * v.Y := Real.mul_self_sqrt hs
  have hxm : v.X / v.Mag * m * (v.X / v.Mag * m) + v.Y / v.Mag * m * (v.Y / v.Mag * m)
      = (v.X * v.X + v.Y * v.Y) / (v.Mag * v.Mag) * (m * m) := by ring
  have hmag : (v.SetMag m).Mag = m := by
    rw [Vec.SetMag_eq]
    show Real.sqrt (v.X / v.Mag * m * (v.X / v.Mag * m) +
      v.Y / v.Mag * m * (v.Y / v.Mag * m)) = m
    rw [hxm, ← hMM, div_self (mul_ne_zero hv hv), one_mul]
    exact Real.sqrt_mul_self hm.le
  refine ⟨hmag, ?_⟩
  unfold Normalise
  rw [hmag]
  have hX : (v.SetMag m).X = v.X / v.Mag * m := rfl
  have hY : (v.SetMag m).Y = v.Y / v.Mag * m := rfl
  rw [hX, hY, mul_div_cancel_right₀ _ (ne_of_gt hm), mul_div_cancel_right₀ _ (ne_of_gt hm)]

/-- C8 witness: the amended claim at `v = (1,0)`, `m = 2`. -/
theorem setMag_pos_spec_witness :
    (Vec.SetMag ⟨1, 0⟩ 2).Mag = 2 ∧ Normalise (Vec.SetMag ⟨1, 0⟩ 2) = Normalise ⟨1, 0⟩ :=
  setMag_pos_spec ⟨1, 0⟩ 2
    (by simp only [Vec.Mag]; norm_num [Real.sqrt_one]) (by norm_num)

/-- `SetPixel` preserves the buffer width. -/
theorem FrameBuffer.SetPixel_width (b : FrameBuffer) (row col : ℤ) :
    (b.SetPixel row col).width = b.width := by
  unfold FrameBuffer.SetPixel
  split <;> rfl

/-- `SetPixel` preserves the buffer height. -/
theorem FrameBuffer.SetPixel_height (b : FrameBuffer) (row col : ℤ) :
    (b.SetPixel row col).height = b.height := by
  unfold FrameBuffer.SetPixel
  split <;> rfl

/-- A pixel is set after `SetPixel` iff it is the written, in-bounds
coordinate or was already set. -/
theorem FrameBuffer.pixels_SetPixel (b : FrameBuffer) (row col r c : ℤ) :
    ((b.SetPixel row col).pixels r c = true) ↔
      ((r = row ∧ c = col ∧ 0 ≤ row ∧ row < b.height ∧ 0 ≤ col ∧ col < b.width) ∨
        b.pixels r c = true) := by
  unfold FrameBuffer.SetPixel
  split_ifs with h
  · show (if r = row ∧ c = col then true else b.pixels r c) = true ↔ _
    split_ifs with h2
    · simp only [true_iff]
      exact Or.inl ⟨h2.1, h2.2, h.1, h.2.1, h.2.2.1, h.2.2.2⟩
    · constructor
      · exact fun hp => Or.inr hp
      · rintro (⟨hr, hc, -⟩ | hp)
        · exact absurd ⟨hr, hc⟩ h2
        · exact hp
  · constructor
    · exact fun hp => Or.inr hp
    · rintro (⟨-, -, hb⟩ | hp)
      · exact absurd hb h
      · exact hp

/-- A conditional row scan preserves the buffer width. -/
theorem scanRow_width (cond : ℕ → Prop) [DecidablePred cond] (frow fcol : ℕ → ℤ)
    (n : ℕ) (buf : FrameBuffer) :
    ((List.range n).foldl
      (fun b l => if cond l then b.SetPixel (frow l) (fcol l) else b) buf).width = buf.width := by
  induction n with
  | zero => simp
  | succ n ih =>
    rw [List.range_succ, List.foldl_append, List.foldl_cons, List.foldl_nil]
    by_cases hc : cond n
    · rw [if_pos hc, FrameBuffer.SetPixel_width, ih]
    · rw [if_neg hc, ih]

/-- A conditional row scan preserves the buffer height. -/
theorem scanRow_height (cond : ℕ → Prop) [DecidablePred cond] (frow fcol : ℕ → ℤ)
    (n : ℕ) (buf : FrameBuffer) :
    ((List.range n).foldl
      (fun b l => if cond l then b.SetPixel (frow l) (fcol l) else b) buf).height = buf.height := by
  induction n with
  | zero => simp
  | succ n ih =>
    rw [List.range_succ, List.foldl_append, List.foldl_cons, List.foldl_nil]
    by_cases hc : cond n
    · rw [if_pos hc, FrameBuffer.SetPixel_height, ih]
    · rw [if_neg hc, ih]

/-- Pixel characterization of a conditional row scan: a pixel is set iff
some in-bounds loop index targeted it with its condition true, or it was
already set. -/
theorem pixels_scanRow (cond : ℕ → Prop) [DecidablePred cond] (frow fcol : ℕ → ℤ)
    (n : ℕ) (buf : FrameBuffer) (r c : ℤ) :
    (((List.range n).foldl
        (fun b l => if cond l then b.SetPixel (frow l) (fcol l) else b) buf).pixels r c = true)
      ↔ ((∃ l, l < n ∧ cond l ∧ r = frow l ∧ c = fcol l ∧
            0 ≤ frow l ∧ frow l < buf.height ∧ 0 ≤ fcol l ∧ fcol l < buf.width) ∨
          buf.pixels r c = true) := by
  induction n with
  | zero => simp
  | succ n ih =>
    rw [List.range_succ, List.foldl_append, List.foldl_cons, List.foldl_nil]
    have hw := scanRow_width cond frow fcol n buf
    have hh := scanRow_height cond frow fcol n buf
    by_cases hc : cond n
    · rw [if_pos hc, FrameBuffer.pixels_SetPixel, hw, hh, ih]
      constructor
      · rintro (⟨hr, hcc, h0, h1, h2, h3⟩ | (⟨l, hl, hrest⟩ | hp))
        · exact Or.inl ⟨n, Nat.lt_succ_self n, hc, hr, hcc, h0, h1, h2, h3⟩
        · exact Or.inl ⟨l, Nat.lt_succ_of_lt hl, hrest⟩
        · exact Or.inr hp
      · rintro (⟨l, hl, hcl, hrest⟩ | hp)
        · rcases Nat.lt_succ_iff_lt_or_eq.mp hl with h' | rfl
          · exact Or.inr (Or.inl ⟨l, h', hcl, hrest⟩)
          · exact Or.inl hrest
        · exact Or.inr (Or.inr hp)
    · rw [if_neg hc, ih]
      constructor
      · rintro (⟨l, hl, hrest⟩ | hp)
        · exact Or.inl ⟨l, Nat.lt_succ_of_lt hl, hrest⟩
        · exact Or.inr hp
      · rintro (⟨l, hl, hcl, hrest⟩ | hp)
        · rcases Nat.lt_succ_iff_lt_or_eq.mp hl with h' | rfl
          · exact Or.inl ⟨l, h', hcl, hrest⟩
          · exact absurd hcl hc
        · exact Or.inr hp

/-- A conditional grid scan preserves the buffer width. -/
theorem scanGrid_width (cond : ℕ → ℕ → Prop) [∀ k l, Decidable (cond k l)]
    (frow fcol : ℕ → ℕ → ℤ) (K L : ℕ) (buf : FrameBuffer) :
    ((List.range K).foldl (fun b1 k =>
      (List.range L).foldl
        (fun b2 l => if cond k l then b2.SetPixel (frow k l) (fcol k l) else b2) b1) buf).width
      = buf.width := by
  induction K with
  | zero => simp
  | succ K ih =>
    rw [List.range_succ, List.foldl_append, List.foldl_cons, List.foldl_nil]
    rw [scanRow_width (cond K) (frow K) (fcol K), ih]

/-- A conditional grid scan preserves the buffer height. -/
theorem scanGrid_height (cond : ℕ → ℕ → Prop) [∀ k l, Decidable (cond k l)]
    (frow fcol : ℕ → ℕ → ℤ) (K L : ℕ) (buf : FrameBuffer) :
    ((List.range K).foldl (fun b1 k =>
      (List.range L).foldl
        (fun b2 l => if cond k l then b2.SetPixel (frow k l) (fcol k l) else b2) b1) buf).height
      = buf.height := by
  induction K with
  | zero => simp
  | succ K ih =>
    rw [List.range_succ, List.foldl_append, List.foldl_cons, List.foldl_nil]
    rw [scanRow_height (cond K) (frow K) (fcol K), ih]

/-- Pixel characterization of a conditional grid scan. -/
theorem pixels_scanGrid (cond : ℕ → ℕ → Prop) [∀ k l, Decidable (cond k l)]
    (frow fcol : ℕ → ℕ → ℤ) (K L : ℕ) (buf : FrameBuffer) (r c : ℤ) :
    (((List.range K).foldl (fun b1 k =>
        (List.range L).foldl
          (fun b2 l => if cond k l then b2.SetPixel (frow k l) (fcol k l) else b2) b1) buf).pixels
        r c = true)
      ↔ ((∃ k, k < K ∧ ∃ l, l < L ∧ cond k l ∧ r = frow k l ∧ c = fcol k l ∧
            0 ≤ frow k l ∧ frow k l < buf.height ∧ 0 ≤ fcol k l ∧ fcol k l < buf.width) ∨
          buf.pixels r c = true) := by
  induction K with
  | zero => simp
  | succ K ih =>
    rw [List.range_succ, List.foldl_append, List.foldl_cons, List.foldl_nil]
    rw [pixels_scanRow (cond K) (frow K) (fcol K) L _ r c,
      scanGrid_width cond frow fcol K L buf, scanGrid_height cond frow fcol K L buf, ih]
    constructor
    · rintro (⟨l, hl, hrest⟩ | (⟨k, hk, hrest⟩ | hp))
      · exact Or.inl ⟨K, Nat.lt_succ_self K, l, hl, hrest⟩
      · exact Or.inl ⟨k, Nat.lt_succ_of_lt hk, hrest⟩
      · exact Or.inr hp
    · rintro (⟨k, hk, l, hl, hrest⟩ | hp)
      · rcases Nat.lt_succ_iff_lt_or_eq.mp hk with h' | rfl
        · exact Or.inr (Or.inl ⟨k, h', l, hl, hrest⟩)
        · exact Or.inl ⟨l, hl, hrest⟩
      · exact Or.inr (Or.inr hp)

/-- Pixel characterization of an unconditional grid scan (the shape of
`Rect.drawSolid`). -/
theorem pixels_scanGridU (frow fcol : ℕ → ℕ → ℤ) (K L : ℕ) (buf : FrameBuffer) (r c : ℤ) :
    (((List.range K).foldl (fun b1 k =>
        (List.range L).foldl (fun b2 l => b2.SetPixel (frow k l) (fcol k l)) b1) buf).pixels
        r c = true)
      ↔ ((∃ k, k < K ∧ ∃ l, l < L ∧ r = frow k l ∧ c = fcol k l ∧
            0 ≤ frow k l ∧ frow k l < buf.height ∧ 0 ≤ fcol k l ∧ fcol k l < buf.width) ∨
          buf.pixels r c = true) := by
  have hfun : (fun (b1 : FrameBuffer) (k : ℕ) =>
      (List.range L).foldl (fun b2 l => b2.SetPixel (frow k l) (fcol k l)) b1)
      = (fun b1 k => (List.range L).foldl
          (fun b2 l => if True then b2.SetPixel (frow k l) (fcol k l) else b2) b1) := rfl
  rw [hfun, pixels_scanGrid (fun _ _ => True) frow fcol K L buf r c]
  simp only [true_and]

/-- `goRound` is the identity on integers. -/
theorem goRound_intCast (n : ℤ) : goRound (n : ℝ) = n := by
  unfold goRound
  split_ifs with h
  · rw [Int.floor_eq_iff]
    constructor
    · linarith
    · linarith
  · rw [show -(n : ℝ) + 1 / 2 = ((-n : ℤ) : ℝ) + 1 / 2 by push_cast; ring]
    rw [show ⌊((-n : ℤ) : ℝ) + 1 / 2⌋ = -n from by
      rw [Int.floor_eq_iff]
      constructor
      · push_cast
        linarith
      · push_cast
        linarith]
    exact neg_neg n

/-- C3: drawing a rectangle at (0,0) with width 2, height 2 and thickness
0 into a large-enough, initially clear frame buffer sets exactly the nine
pixels with rows 0..2 and columns 0..2 (both bounds inclusive) and no
other pixel. -/
theorem rect_fill_inclusive (rect : Rect) (buf : FrameBuffer)
    (hpx : rect.Pos.X = 0) (hpy : rect.Pos.Y = 0) (hw : rect.w = 2) (hh : rect.h = 2)
    (ht : rect.style.Thickness = 0)
    (hbw : 3 ≤ buf.width) (hbh : 3 ≤ buf.height)
    (hinit : ∀ r c, buf.pixels r c = false) (r c : ℤ) :
    (((rect.Draw buf).pixels r c) = true) ↔ (0 ≤ r ∧ r ≤ 2 ∧ 0 ≤ c ∧ c ≤ 2) := by
  unfold Rect.Draw
  rw [if_pos ht]
  unfold Rect.drawSolid
  rw [hpx, hpy, hw, hh]
  have h2 : goRound (2 : ℝ) = 2 := by
    rw [show (2 : ℝ) = ((2 : ℤ) : ℝ) by norm_num, goRound_intCast]
  have h0 : goRound (0 : ℝ) = 0 := by
    rw [show (0 : ℝ) = ((0 : ℤ) : ℝ) by norm_num, goRound_intCast]
  rw [h2, h0]
  rw [show ((2 : ℤ) + 1).toNat = 3 from rfl]
  rw [pixels_scanGridU (fun _ l => 0 + (l : ℤ)) (fun k _ => 0 + (k : ℤ)) 3 3 buf r c]
  simp only [hinit]
  constructor
  · rintro (⟨k, hk, l, hl, hr, hc, -⟩ | hfalse)
    · omega
    · exact absurd hfalse (by simp)
  · intro hb
    exact Or.inl ⟨c.toNat, by omega, r.toNat, by omega, by omega, by omega, by omega,
      by omega, by omega, by omega⟩

/-- C3 witness: the concrete rectangle on the concrete 10×10 buffer sets
the pixel (1,1) — applying the claim theorem at a concrete input. -/
theorem rect_fill_inclusive_witness :
    (((NewRect 2 2 ⟨0, 0⟩ []).Draw buf10).pixels 1 1) = true :=
  (rect_fill_inclusive (NewRect 2 2 ⟨0, 0⟩ []) buf10 rfl rfl rfl rfl rfl
    (by norm_num [buf10]) (by norm_num [buf10]) (fun _ _ => rfl) 1 1).mpr (by norm_num)

/-- Applying any list of `WithStyle` options leaves the width unchanged. -/
theorem withStyle_fold_w (s : shape) (styles : List Style) :
    ((styles.map WithStyle).foldl (fun sh opt => opt sh) s).w = s.w := by
  induction styles generalizing s with
  | nil => rfl
  | cons st rest ih =>
    rw [List.map_cons, List.foldl_cons]
    rw [ih]
    rfl

/-- Applying any list of `WithStyle` options leaves the height unchanged. -/
theorem withStyle_fold_h (s : shape) (styles : List Style) :
    ((styles.map WithStyle).foldl (fun sh opt => opt sh) s).h = s.h := by
  induction styles generalizing s with
  | nil => rfl
  | cons st rest ih =>
    rw [List.map_cons, List.foldl_cons]
    rw [ih]
    rfl

/-- C5 (in the claim's own operational form): `Circle.Draw` panics — and
therefore writes no pixel — whenever width ≠ height (the check precedes
every write), and construction never silently coerces unequal dimensions:
`NewCircle` takes a single diameter, so with any style options it always
yields width = height (an unequal circle can never come from the
constructor). -/
theorem circle_unequal_fatal :
    (∀ (c : Circle) (buf : FrameBuffer), c.w ≠ c.h → c.Draw buf = none) ∧
      (∀ (d : ℝ) (pos : Vec) (styles : List Style),
        (NewCircle d pos (styles.map WithStyle)).w =
          (NewCircle d pos (styles.map WithStyle)).h) := by
  constructor
  · intro c buf hne
    unfold Circle.Draw
    rw [if_pos hne]
  · intro d pos styles
    unfold NewCircle newShape
    rw [withStyle_fold_w, withStyle_fold_h]
    rfl

/-- C5 witness: a circle whose fields are forced to width 1, height 2 is
rejected by `Draw` on the concrete buffer, and a concrete construction
yields equal width and height. -/
theorem circle_unequal_fatal_witness :
    Circle.Draw ⟨⟨⟨0, 0⟩, ⟨0, -1⟩, 1, 2, ⟨(), 0⟩⟩⟩ buf10 = none ∧
      (NewCircle 3 ⟨0, 0⟩ ([].map WithStyle)).w = (NewCircle 3 ⟨0, 0⟩ ([].map WithStyle)).h :=
  ⟨circle_unequal_fatal.1 ⟨⟨⟨0, 0⟩, ⟨0, -1⟩, 1, 2, ⟨(), 0⟩⟩⟩ buf10 (by norm_num),
    circle_unequal_fatal.2 3 ⟨0, 0⟩ []⟩

/-- C4: drawing a circle with integer centre, natural radius R (diameter
2R) and outline thickness t > 0 into a large-enough, initially clear
buffer succeeds, and a pixel of the axis-aligned bounding square of side
2R centred on the position is set iff its Euclidean distance from the
centre lies in the closed band [R - t, R]; pixels strictly inside the
band's inner edge or strictly outside the radius are not set. -/
theorem circle_outline_band (c : Circle) (buf : FrameBuffer) (cx cy : ℤ) (R : ℕ) (t : ℝ)
    (hp : c.Pos = ⟨(cx : ℝ), (cy : ℝ)⟩)
    (hw : c.w = 2 * (R : ℝ)) (hh : c.h = 2 * (R : ℝ))
    (hts : c.style.Thickness = t) (ht : 0 < t)
    (hx0 : 0 ≤ cx - (R : ℤ)) (hx1 : cx + (R : ℤ) < buf.width)
    (hy0 : 0 ≤ cy - (R : ℤ)) (hy1 : cy + (R : ℤ) < buf.height)
    (hinit : ∀ r q, buf.pixels r q = false)
    (row col : ℤ)
    (hrow0 : cy - (R : ℤ) ≤ row) (hrow1 : row ≤ cy + (R : ℤ))
    (hcol0 : cx - (R : ℤ) ≤ col) (hcol1 : col ≤ cx + (R : ℤ)) :
    ∃ buf2, c.Draw buf = some buf2 ∧
      ((buf2.pixels row col = true) ↔
        ((R : ℝ) - t ≤ Dist ⟨(cx : ℝ), (cy : ℝ)⟩ ⟨(col : ℝ), (row : ℝ)⟩ ∧
          Dist ⟨(cx : ℝ), (cy : ℝ)⟩ ⟨(col : ℝ), (row : ℝ)⟩ ≤ (R : ℝ))) := by
  have hne : ¬(c.w ≠ c.h) := by
    rw [hw, hh]
    exact fun hx => hx rfl
  unfold Circle.Draw
  rw [if_neg hne]
  refine ⟨_, rfl, ?_⟩
  rw [hw, hh, hp, hts]
  simp only []
  have hR2 : (2 : ℝ) * (R : ℝ) / 2 = (R : ℝ) := by ring
  simp only [hR2]
  have hfl : (⌊(2 : ℝ) * (R : ℝ)⌋ + 1).toNat = 2 * R + 1 := by
    rw [show (2 : ℝ) * (R : ℝ) = ((2 * R : ℕ) : ℝ) by push_cast; ring, Int.floor_natCast]
    omega
  simp only [hfl]
  have hgy : ∀ m : ℕ, goRound ((cy : ℝ) - (R : ℝ) + (m : ℝ)) = cy - (R : ℤ) + (m : ℤ) := by
    intro m
    rw [show (cy : ℝ) - (R : ℝ) + (m : ℝ) = ((cy - (R : ℤ) + (m : ℤ) : ℤ) : ℝ) by
      push_cast; ring, goRound_intCast]
  have hgx : ∀ m : ℕ, goRound ((cx : ℝ) - (R : ℝ) + (m : ℝ)) = cx - (R : ℤ) + (m : ℤ) := by
    intro m
    rw [show (cx : ℝ) - (R : ℝ) + (m : ℝ) = ((cx - (R : ℤ) + (m : ℤ) : ℤ) : ℝ) by
      push_cast; ring, goRound_intCast]
  simp only [hgy, hgx]
  simp only [if_neg (ne_of_gt ht)]
  rw [pixels_scanGrid
    (fun k l => (R : ℝ) - t ≤
        Dist ⟨(cx : ℝ), (cy : ℝ)⟩ ⟨(cx : ℝ) - (R : ℝ) + (k : ℝ), (cy : ℝ) - (R : ℝ) + (l : ℝ)⟩ ∧
      Dist ⟨(cx : ℝ), (cy : ℝ)⟩ ⟨(cx : ℝ) - (R : ℝ) + (k : ℝ), (cy : ℝ) - (R : ℝ) + (l : ℝ)⟩ ≤
        (R : ℝ))
    (fun _ l => cy - (R : ℤ) + (l : ℤ)) (fun k _ => cx - (R : ℤ) + (k : ℤ))
    (2 * R + 1) (2 * R + 1) buf row col]
  simp only [hinit]
  constructor
  · rintro (⟨k, hk, l, hl, ⟨hb1, hb2⟩, hr, hc, -⟩ | hfalse)
    · have hc' : ((cx : ℝ) - (R : ℝ) + (k : ℝ)) = (col : ℝ) := by
        rw [hc]; push_cast; ring
      have hr' : ((cy : ℝ) - (R : ℝ) + (l : ℝ)) = (row : ℝ) := by
        rw [hr]; push_cast; ring
      rw [hc', hr'] at hb1 hb2
      exact ⟨hb1, hb2⟩
    · exact absurd hfalse (by simp)
  · rintro ⟨hb1, hb2⟩
    left
    have hzc : (((col - cx + (R : ℤ)).toNat : ℕ) : ℤ) = col - cx + (R : ℤ) := by omega
    have hzr : (((row - cy + (R : ℤ)).toNat : ℕ) : ℤ) = row - cy + (R : ℤ) := by omega
    have hcx : ((cx : ℝ) - (R : ℝ) + (((col - cx + (R : ℤ)).toNat : ℕ) : ℝ)) = (col : ℝ) := by
      rw [show ((((col - cx + (R : ℤ)).toNat : ℕ) : ℝ)) = ((col - cx + (R : ℤ) : ℤ) : ℝ) from by
        exact_mod_cast congrArg (fun z : ℤ => (z : ℝ)) hzc]
      push_cast
      ring
    have hcy : ((cy : ℝ) - (R : ℝ) + (((row - cy + (R : ℤ)).toNat : ℕ) : ℝ)) = (row : ℝ) := by
      rw [show ((((row - cy + (R : ℤ)).toNat : ℕ) : ℝ)) = ((row - cy + (R : ℤ) : ℤ) : ℝ) from by
        exact_mod_cast congrArg (fun z : ℤ => (z : ℝ)) hzr]
      push_cast
      ring
    refine ⟨(col - cx + (R : ℤ)).toNat, by omega, (row - cy + (R : ℤ)).toNat, by omega,
      ?_, by omega, by omega, by omega, by omega, by omega, by omega⟩
    rw [hcx, hcy]
    exact ⟨hb1, hb2⟩

/-- C4 witness: the outline circle of diameter 2, thickness 1 centred at
(1,1) on a clear 4×4 buffer sets the pixel at row 0, column 1 (distance 1,
inside the band [0,1]). -/
theorem circle_outline_band_witness :
    ∃ buf2, (NewCircle 2 ⟨1, 1⟩ [WithStyle ⟨(), 1⟩]).Draw ⟨4, 4, fun _ _ => false⟩ = some buf2 ∧
      buf2.pixels 0 1 = true := by
  obtain ⟨buf2, hdraw, hiff⟩ :=
    circle_outline_band (NewCircle 2 ⟨1, 1⟩ [WithStyle ⟨(), 1⟩]) ⟨4, 4, fun _ _ => false⟩
      1 1 1 1
      (by norm_num [NewCircle, newShape, WithStyle, defaultShape, Vec.mk.injEq])
      (by norm_num [NewCircle, newShape, WithStyle, defaultShape])
      (by norm_num [NewCircle, newShape, WithStyle, defaultShape])
      rfl (by norm_num)
      (by norm_num) (by norm_num) (by norm_num) (by norm_num)
      (fun _ _ => rfl)
      0 1
      (by norm_num) (by norm_num) (by norm_num) (by norm_num)
  have hdist : Dist ⟨((1 : ℤ) : ℝ), ((1 : ℤ) : ℝ)⟩ ⟨((1 : ℤ) : ℝ), ((0 : ℤ) : ℝ)⟩ = 1 := by
    unfold Dist
    norm_num [Real.sqrt_one]
  refine ⟨buf2, hdraw, hiff.mpr ⟨?_, ?_⟩⟩ <;> rw [hdist] <;> norm_num

end turdgl
